import Mathlib

/-!
Shallow embedding of `nested-template-rs` (src/src/lib.rs), a minimal
nested-template string renderer.  Strings are embedded as `List Char`;
since all inputs of interest are ASCII, Rust byte offsets coincide with
the character indices used here.
-/

namespace Ntpl

/-- The open-brace character (Unicode 123). -/
def obrc : Char := '\x7b'

/-- The close-brace character (Unicode 125). -/
def cbrc : Char := '\x7d'

/-- Embeds `ParseError` from src/src/lib.rs (lines 3-8). -/
inductive ParseError where
  | MissingOpenBrace : Nat → ParseError
  | MissingCloseBrace : Nat → ParseError
  | MissingTemplate : List Char → ParseError
deriving DecidableEq

/-- Tests whether `pat` is a prefix of `s` (used to embed Rust `str::find`). -/
def isPrefixList : List Char → List Char → Bool
  | [], _ => true
  | _ :: _, [] => false
  | a :: as, b :: bs => a = b && isPrefixList as bs

/-- Embeds Rust `str::find(pat)`: index of the first occurrence of the
substring `pat` in `s`, or `none`. -/
def findSub (pat : List Char) : List Char → Option Nat
  | [] => if isPrefixList pat [] then some 0 else none
  | b :: t =>
    if isPrefixList pat (b :: t) then some 0
    else (findSub pat t).map (fun n => n + 1)

/-- Embeds Rust `char::is_whitespace`: the Unicode White_Space property
(U+0009..U+000D including VT and FF, U+0020, U+0085, U+00A0, U+1680,
U+2000..U+200A, U+2028, U+2029, U+202F, U+205F, U+3000). -/
def isWhiteSpaceChar (c : Char) : Bool :=
  (0x09 ≤ c.toNat && c.toNat ≤ 0x0D) || c.toNat == 0x20 || c.toNat == 0x85 ||
  c.toNat == 0xA0 || c.toNat == 0x1680 ||
  (0x2000 ≤ c.toNat && c.toNat ≤ 0x200A) || c.toNat == 0x2028 ||
  c.toNat == 0x2029 || c.toNat == 0x202F || c.toNat == 0x205F ||
  c.toNat == 0x3000

/-- Embeds Rust `str::trim`: drop leading and trailing characters having the
Unicode White_Space property. -/
def trimList (s : List Char) : List Char :=
  ((s.dropWhile isWhiteSpaceChar).reverse.dropWhile isWhiteSpaceChar).reverse

theorem isPrefixList_length {pat s : List Char} (h : isPrefixList pat s = true) :
    pat.length ≤ s.length := by
  induction pat generalizing s with
  | nil => simp
  | cons a as ih =>
    cases s with
    | nil => simp [isPrefixList] at h
    | cons b bs =>
      simp only [isPrefixList, Bool.and_eq_true] at h
      simpa using ih h.2

theorem findSub_bound {pat s : List Char} {i : Nat} (h : findSub pat s = some i) :
    i + pat.length ≤ s.length := by
  induction s generalizing i with
  | nil =>
    by_cases hp : isPrefixList pat [] = true
    · cases pat with
      | nil => simp [findSub, hp] at h; omega
      | cons a as => simp [isPrefixList] at hp
    · simp [findSub, hp] at h
  | cons b bs ih =>
    by_cases hp : isPrefixList pat (b :: bs) = true
    · simp only [findSub, hp, if_true, Option.some.injEq] at h
      have := isPrefixList_length hp
      omega
    · simp only [findSub, hp, if_false] at h
      cases hn : findSub pat bs with
      | none => rw [hn] at h; simp at h
      | some n =>
        rw [hn] at h
        simp at h
        have := ih hn
        simp only [List.length_cons]
        omega

/-- Embeds `render_helper` from src/src/lib.rs (lines 39-117): tokenize a
body string into segments `(is_template, value)`, where `is_template = false`
marks a literal segment and `is_template = true` a placeholder name. -/
def renderHelper (body : List Char) : Except ParseError (List (Bool × List Char)) :=
  match h1 : findSub [obrc, obrc] body with
  | some start_escape =>
    -- Handle any escaped opening braces
    do
      let pre_vec ← renderHelper (body.take start_escape)
      let post_vec ← renderHelper
        (if start_escape + 2 < body.length then body.drop (start_escape + 2) else [])
      pure (pre_vec ++ [(false, [obrc])] ++ post_vec)
  | none =>
    match h2 : findSub [cbrc, cbrc] body with
    | some start_escape =>
      -- Handle any escaped closing braces
      do
        let pre_vec ← renderHelper (body.take start_escape)
        let post_vec ← renderHelper
          (if start_escape + 2 < body.length then body.drop (start_escape + 2) else [])
        pure (pre_vec ++ [(false, [cbrc])] ++ post_vec)
    | none =>
      match findSub [obrc] body, h4 : findSub [cbrc] body with
      | none, none =>
        -- There are no template strings left, so return the whole string
        .ok [(false, body)]
      | some start_template, none =>
        -- The template is never closed
        .error (.MissingCloseBrace start_template)
      | none, some end_template =>
        -- The template is never opened
        .error (.MissingOpenBrace end_template)
      | some start_template, some end_template =>
        if start_template > end_template then .error (.MissingOpenBrace end_template)
        else do
          let post_vec ← renderHelper (body.drop (end_template + 1))
          pure ((false, body.take start_template) ::
            (true, trimList ((body.take end_template).drop (start_template + 1))) :: post_vec)
termination_by body.length
decreasing_by
· have := findSub_bound h1
  simp only [List.length_cons, List.length_nil] at this
  simp only [List.length_take]
  omega
· have := findSub_bound h1
  simp only [List.length_cons, List.length_nil] at this
  split
  · simp only [List.length_drop]; omega
  · simp only [List.length_nil]; omega
· have := findSub_bound h2
  simp only [List.length_cons, List.length_nil] at this
  simp only [List.length_take]
  omega
· have := findSub_bound h2
  simp only [List.length_cons, List.length_nil] at this
  split
  · simp only [List.length_drop]; omega
  · simp only [List.length_nil]; omega
· have := findSub_bound h4
  simp only [List.length_cons, List.length_nil] at this
  simp only [List.length_drop]
  omega

/-- Embeds `NestedTemplate` from src/src/lib.rs (lines 34-37): a body plus a
map from name to child template.  The `HashMap` is embedded as an association
list with unique keys (kept unique by `insertSub`). -/
inductive NestedTemplate where
  | mk : List Char → List (List Char × NestedTemplate) → NestedTemplate

/-- Embeds `HashMap::get`: look a name up in the `sub_templates` map. -/
def lookupSub (name : List Char) :
    List (List Char × NestedTemplate) → Option NestedTemplate
  | [] => none
  | (k, t) :: rest => if k = name then some t else lookupSub name rest

/-- Embeds `HashMap::insert`: replace the entry under `name`, or append one. -/
def insertSub (name : List Char) (t : NestedTemplate) :
    List (List Char × NestedTemplate) → List (List Char × NestedTemplate)
  | [] => [(name, t)]
  | (k, v) :: rest =>
    if k = name then (name, t) :: rest else (k, v) :: insertSub name t rest

/-- Embeds `NestedTemplate::new` (src/src/lib.rs lines 120-125). -/
def NestedTemplate.new (body : List Char) : NestedTemplate := .mk body []

/-- Embeds `NestedTemplate::add_sub_template` (src/src/lib.rs lines 127-129). -/
def NestedTemplate.add_sub_template :
    NestedTemplate → List Char → NestedTemplate → NestedTemplate
  | .mk body subs, name, t => .mk body (insertSub name t subs)

theorem lookupSub_size {name : List Char}
    {subs : List (List Char × NestedTemplate)} {t : NestedTemplate}
    (h : lookupSub name subs = some t) : sizeOf t < sizeOf subs := by
  induction subs with
  | nil => simp [lookupSub] at h
  | cons p rest ih =>
    obtain ⟨k, v⟩ := p
    by_cases hk : k = name
    · simp only [lookupSub, hk, if_true, Option.some.injEq] at h
      subst h
      simp only [List.cons.sizeOf_spec, Prod.mk.sizeOf_spec]
      omega
    · simp only [lookupSub, hk, if_false] at h
      have := ih h
      simp only [List.cons.sizeOf_spec]
      omega

mutual

/-- Embeds `NestedTemplate::render` (src/src/lib.rs lines 131-149): tokenize
the body, then emit literals verbatim and recursively render looked-up
children for placeholders, concatenating left to right. -/
def render : NestedTemplate → Except ParseError (List Char)
  | .mk body subs => do
    let pairs ← renderHelper body
    renderPairs subs pairs
termination_by t => (sizeOf t, 0)

/-- Embeds the `for (is_template, value) in pairs` loop inside
`NestedTemplate::render` (src/src/lib.rs lines 135-146). -/
def renderPairs (subs : List (List Char × NestedTemplate)) :
    List (Bool × List Char) → Except ParseError (List Char)
  | [] => .ok []
  | (is_template, value) :: rest =>
    if is_template then
      match h : lookupSub value subs with
      | none => .error (.MissingTemplate value)
      | some t => do
        let r ← render t
        let rs ← renderPairs subs rest
        pure (r ++ rs)
    else do
      let rs ← renderPairs subs rest
      pure (value ++ rs)
termination_by pairs => (sizeOf subs, pairs.length)
decreasing_by
· exact Prod.Lex.left _ _ (lookupSub_size h)
· apply Prod.Lex.right
  simp only [List.length_cons]
  omega
· apply Prod.Lex.right
  simp only [List.length_cons]
  omega

end

instance {ε α : Type} [DecidableEq ε] [DecidableEq α] : DecidableEq (Except ε α)
  | .error a, .error b =>
    if h : a = b then isTrue (by subst h; rfl)
    else isFalse (fun hh => h (by cases hh; rfl))
  | .error _, .ok _ => isFalse (fun hh => Except.noConfusion hh)
  | .ok _, .error _ => isFalse (fun hh => Except.noConfusion hh)
  | .ok a, .ok b =>
    if h : a = b then isTrue (by subst h; rfl)
    else isFalse (fun hh => h (by cases hh; rfl))

/-- Fuel-indexed evaluator for `renderHelper`, kernel-computable; proven to
agree with `renderHelper` whenever the fuel exceeds the body length. -/
def renderHelperF : Nat → List Char → Except ParseError (List (Bool × List Char))
  | 0, _ => .error (.MissingOpenBrace 0)
  | fuel + 1, body =>
    match findSub [obrc, obrc] body with
    | some start_escape =>
      match renderHelperF fuel (body.take start_escape) with
      | .error e => .error e
      | .ok pre_vec =>
        match renderHelperF fuel
            (if start_escape + 2 < body.length then body.drop (start_escape + 2) else []) with
        | .error e => .error e
        | .ok post_vec => .ok (pre_vec ++ [(false, [obrc])] ++ post_vec)
    | none =>
      match findSub [cbrc, cbrc] body with
      | some start_escape =>
        match renderHelperF fuel (body.take start_escape) with
        | .error e => .error e
        | .ok pre_vec =>
          match renderHelperF fuel
              (if start_escape + 2 < body.length then body.drop (start_escape + 2) else []) with
          | .error e => .error e
          | .ok post_vec => .ok (pre_vec ++ [(false, [cbrc])] ++ post_vec)
      | none =>
        match findSub [obrc] body, findSub [cbrc] body with
        | none, none => .ok [(false, body)]
        | some start_template, none => .error (.MissingCloseBrace start_template)
        | none, some end_template => .error (.MissingOpenBrace end_template)
        | some start_template, some end_template =>
          if start_template > end_template then .error (.MissingOpenBrace end_template)
          else
            match renderHelperF fuel (body.drop (end_template + 1)) with
            | .error e => .error e
            | .ok post_vec =>
              .ok ((false, body.take start_template) ::
                (true, trimList ((body.take end_template).drop (start_template + 1))) :: post_vec)

/-- The segment loop of `render`, abstracted over the recursive renderer;
kernel-computable counterpart of `renderPairs`. -/
def renderPairsGen (rf : NestedTemplate → Except ParseError (List Char))
    (subs : List (List Char × NestedTemplate)) :
    List (Bool × List Char) → Except ParseError (List Char)
  | [] => .ok []
  | (is_template, value) :: rest =>
    if is_template then
      match lookupSub value subs with
      | none => .error (.MissingTemplate value)
      | some t =>
        match rf t with
        | .error e => .error e
        | .ok r =>
          match renderPairsGen rf subs rest with
          | .error e => .error e
          | .ok rs => .ok (r ++ rs)
    else
      match renderPairsGen rf subs rest with
      | .error e => .error e
      | .ok rs => .ok (value ++ rs)

/-- Fuel-indexed evaluator for `render`, kernel-computable; proven to agree
with `render` whenever the fuel is at least the size of the template. -/
def renderF : Nat → NestedTemplate → Except ParseError (List Char)
  | 0, _ => .error (.MissingTemplate [])
  | fuel + 1, .mk body subs =>
    match renderHelperF (body.length + 1) body with
    | .error e => .error e
    | .ok pairs => renderPairsGen (renderF fuel) subs pairs

/-- Specification-side description of one segment's contribution to a render:
a literal contributes its text, a placeholder contributes the recursively
rendered output of the child looked up under its name. -/
def SegOut (subs : List (List Char × NestedTemplate)) :
    Bool × List Char → List Char → Prop
  | (false, v), o => o = v
  | (true, n), o => ∃ t, lookupSub n subs = some t ∧ render t = .ok o

/-- Segment lists in which every placeholder segment is immediately preceded
by a literal segment (in particular no placeholder comes first). -/
inductive SepList : List (Bool × List Char) → Prop where
  | nil : SepList []
  | lit (v : List Char) (rest : List (Bool × List Char)) (h : SepList rest) :
      SepList ((false, v) :: rest)
  | ph (v n : List Char) (rest : List (Bool × List Char)) (h : SepList rest) :
      SepList ((false, v) :: (true, n) :: rest)

/-- The invariant carried through `renderHelper`'s recursion: the segment
list is well separated, and starts and ends with a literal segment. -/
def GoodSegs (segs : List (Bool × List Char)) : Prop :=
  SepList segs ∧ (∃ v rest, segs = (false, v) :: rest) ∧
    (∃ w, segs.getLast? = some (false, w))

/-- Binding a success in `Except` applies the continuation (do-notation helper). -/
theorem ok_bind {ε α β : Type} (a : α) (f : α → Except ε β) :
    (Except.ok a : Except ε α) >>= f = f a := rfl

/-- Binding a failure in `Except` propagates it (do-notation helper). -/
theorem error_bind {ε α β : Type} (e : ε) (f : α → Except ε β) :
    (Except.error e : Except ε α) >>= f = Except.error e := rfl

/-- In `Except`, `pure` is `Except.ok` (do-notation helper). -/
theorem pure_eq_ok {ε α : Type} (a : α) : (pure a : Except ε α) = Except.ok a := rfl

theorem renderHelperF_eq :
    ∀ (fuel : Nat) (body : List Char), body.length < fuel →
      renderHelperF fuel body = renderHelper body := by
  intro fuel
  induction fuel with
  | zero => intro body h; exact absurd h (by omega)
  | succ fuel ih =>
    intro body hlen
    rw [renderHelper.eq_def]
    cases hf1 : findSub [obrc, obrc] body with
    | some i =>
      have hb := findSub_bound hf1
      simp only [List.length_cons, List.length_nil] at hb
      simp only [renderHelperF, hf1]
      have e1 : renderHelperF fuel (body.take i) = renderHelper (body.take i) := by
        apply ih; simp only [List.length_take]; omega
      have e2 : renderHelperF fuel
          (if i + 2 < body.length then body.drop (i + 2) else []) =
          renderHelper (if i + 2 < body.length then body.drop (i + 2) else []) := by
        apply ih
        split
        · simp only [List.length_drop]; omega
        · simp only [List.length_nil]; omega
      rw [e1, e2]
      cases renderHelper (body.take i) with
      | error e => simp [error_bind]
      | ok pre_vec =>
        simp only [ok_bind]
        cases renderHelper (if i + 2 < body.length then body.drop (i + 2) else []) with
        | error e => simp [error_bind]
        | ok post_vec => simp [ok_bind, pure_eq_ok]
    | none =>
      cases hf2 : findSub [cbrc, cbrc] body with
      | some i =>
        have hb := findSub_bound hf2
        simp only [List.length_cons, List.length_nil] at hb
        simp only [renderHelperF, hf1, hf2]
        have e1 : renderHelperF fuel (body.take i) = renderHelper (body.take i) := by
          apply ih; simp only [List.length_take]; omega
        have e2 : renderHelperF fuel
            (if i + 2 < body.length then body.drop (i + 2) else []) =
            renderHelper (if i + 2 < body.length then body.drop (i + 2) else []) := by
          apply ih
          split
          · simp only [List.length_drop]; omega
          · simp only [List.length_nil]; omega
        rw [e1, e2]
        cases renderHelper (body.take i) with
        | error e => simp [error_bind]
        | ok pre_vec =>
          simp only [ok_bind]
          cases renderHelper (if i + 2 < body.length then body.drop (i + 2) else []) with
          | error e => simp [error_bind]
          | ok post_vec => simp [ok_bind, pure_eq_ok]
      | none =>
        cases hf3 : findSub [obrc] body with
        | none =>
          cases hf4 : findSub [cbrc] body with
          | none => simp only [renderHelperF, hf1, hf2, hf3, hf4]
          | some e => simp only [renderHelperF, hf1, hf2, hf3, hf4]
        | some s =>
          cases hf4 : findSub [cbrc] body with
          | none => simp only [renderHelperF, hf1, hf2, hf3, hf4]
          | some e =>
            have hb := findSub_bound hf4
            simp only [List.length_cons, List.length_nil] at hb
            simp only [renderHelperF, hf1, hf2, hf3, hf4]
            by_cases hse : s > e
            · simp only [hse, if_true]
            · simp only [hse, if_false]
              have e1 : renderHelperF fuel (body.drop (e + 1)) =
                  renderHelper (body.drop (e + 1)) := by
                apply ih; simp only [List.length_drop]; omega
              rw [e1]
              cases renderHelper (body.drop (e + 1)) with
              | error err => simp [error_bind]
              | ok post_vec => simp [ok_bind, pure_eq_ok]

/-- Evaluation rule: `renderHelper` equals its fuel evaluator at sufficient fuel. -/
theorem renderHelper_eval (body : List Char) :
    renderHelper body = renderHelperF (body.length + 1) body :=
  (renderHelperF_eq (body.length + 1) body (by omega)).symm

theorem renderPairsGen_eq
    (rf : NestedTemplate → Except ParseError (List Char))
    (subs : List (List Char × NestedTemplate))
    (hrf : ∀ t, sizeOf t < sizeOf subs → rf t = render t) :
    ∀ pairs, renderPairsGen rf subs pairs = renderPairs subs pairs := by
  intro pairs
  induction pairs with
  | nil => simp [renderPairsGen, renderPairs]
  | cons p rest ih =>
    obtain ⟨is_template, value⟩ := p
    cases is_template with
    | false =>
      simp only [renderPairsGen, renderPairs, if_false, Bool.false_eq_true, ih]
      cases renderPairs subs rest with
      | error e => simp [error_bind]
      | ok rs => simp [ok_bind, pure_eq_ok]
    | true =>
      simp only [renderPairsGen, renderPairs, if_true]
      cases hl : lookupSub value subs with
      | none => rfl
      | some t =>
        dsimp only
        rw [hrf t (lookupSub_size hl)]
        cases render t with
        | error e => simp [error_bind]
        | ok r =>
          simp only [ok_bind, ih]
          cases renderPairs subs rest with
          | error e => simp [error_bind]
          | ok rs => simp [ok_bind, pure_eq_ok]

theorem renderF_eq :
    ∀ (fuel : Nat) (t : NestedTemplate), sizeOf t ≤ fuel →
      renderF fuel t = render t := by
  intro fuel
  induction fuel with
  | zero =>
    intro t h
    obtain ⟨body, subs⟩ := t
    simp only [NestedTemplate.mk.sizeOf_spec] at h
    omega
  | succ fuel ih =>
    intro t hsz
    obtain ⟨body, subs⟩ := t
    simp only [NestedTemplate.mk.sizeOf_spec] at hsz
    rw [render.eq_def]
    simp only [renderF, ← renderHelper_eval]
    cases renderHelper body with
    | error e => simp [error_bind]
    | ok pairs =>
      simp only [ok_bind]
      exact renderPairsGen_eq (renderF fuel) subs
        (fun t' ht' => ih t' (by omega)) pairs

/-- Evaluation rule: `render` equals its fuel evaluator at sufficient fuel. -/
theorem render_eval (t : NestedTemplate) : render t = renderF (sizeOf t) t :=
  (renderF_eq (sizeOf t) t (by omega)).symm

theorem bind_ok_iff {ε α β : Type} (x : Except ε α) (f : α → Except ε β) (b : β) :
    x >>= f = .ok b ↔ ∃ a, x = .ok a ∧ f a = .ok b := by
  cases x with
  | error e => simp [error_bind]
  | ok a => simp [ok_bind]

theorem isPrefixList_iff {pat s : List Char} :
    isPrefixList pat s = true ↔ pat <+: s := by
  induction pat generalizing s with
  | nil => simp [isPrefixList]
  | cons a as ih =>
    cases s with
    | nil => simp [isPrefixList]
    | cons b bs =>
      simp only [isPrefixList, Bool.and_eq_true, decide_eq_true_eq, ih,
        List.cons_prefix_cons]

theorem infix_of_findSub_some {pat s : List Char} {i : Nat}
    (h : findSub pat s = some i) : pat <:+: s := by
  induction s generalizing i with
  | nil =>
    by_cases hp : isPrefixList pat [] = true
    · exact (isPrefixList_iff.mp hp).isInfix
    · simp [findSub, hp] at h
  | cons b bs ih =>
    by_cases hp : isPrefixList pat (b :: bs) = true
    · exact (isPrefixList_iff.mp hp).isInfix
    · simp only [findSub, hp, if_false] at h
      cases hn : findSub pat bs with
      | none => rw [hn] at h; simp at h
      | some n => exact List.infix_cons (ih hn)

theorem findSub_some_of_infix {pat s : List Char} (h : pat <:+: s) :
    ∃ i, findSub pat s = some i := by
  induction s with
  | nil =>
    have : pat = [] := List.eq_nil_of_infix_nil h
    subst this
    exact ⟨0, by simp [findSub, isPrefixList]⟩
  | cons b bs ih =>
    by_cases hp : isPrefixList pat (b :: bs) = true
    · exact ⟨0, by simp [findSub, hp]⟩
    · have htail : pat <:+: bs := by
        rcases List.infix_cons_iff.mp h with hpre | hinf
        · exact absurd (isPrefixList_iff.mpr hpre) hp
        · exact hinf
      obtain ⟨i, hi⟩ := ih htail
      exact ⟨i + 1, by simp [findSub, hp, hi]⟩

theorem findSub_none_of_not_infix {pat s : List Char} (h : ¬ pat <:+: s) :
    findSub pat s = none := by
  cases hf : findSub pat s with
  | none => rfl
  | some i => exact absurd (infix_of_findSub_some hf) h

theorem findSub_single_none {c : Char} {s : List Char} (h : c ∉ s) :
    findSub [c] s = none := by
  apply findSub_none_of_not_infix
  intro hin
  exact h (hin.subset (by simp))

theorem findSub_pair_none {c : Char} {s : List Char} (h : c ∉ s) :
    findSub [c, c] s = none := by
  apply findSub_none_of_not_infix
  intro hin
  exact h (hin.subset (by simp))

theorem findSub_single_some_of_mem {c : Char} {s : List Char} (h : c ∈ s) :
    ∃ i, findSub [c] s = some i := by
  apply findSub_some_of_infix
  obtain ⟨l₁, l₂, rfl⟩ := List.append_of_mem h
  exact ⟨l₁, l₂, by simp⟩

theorem findSub_single_first {c : Char} {s : List Char} {i : Nat}
    (h : findSub [c] s = some i) :
    s[i]? = some c ∧ ∀ j, j < i → s[j]? ≠ some c := by
  induction s generalizing i with
  | nil => simp [findSub, isPrefixList] at h
  | cons b bs ih =>
    by_cases hp : isPrefixList [c] (b :: bs) = true
    · simp only [findSub, hp, if_true, Option.some.injEq] at h
      subst h
      simp only [isPrefixList, Bool.and_eq_true, decide_eq_true_eq] at hp
      exact ⟨by simp [hp.1], by intro j hj; omega⟩
    · simp only [findSub, hp, if_false] at h
      cases hn : findSub [c] bs with
      | none => rw [hn] at h; simp at h
      | some n =>
        rw [hn] at h
        simp at h
        subst h
        obtain ⟨hget, hfirst⟩ := ih hn
        have hbc : b ≠ c := by
          simp only [isPrefixList, Bool.and_eq_true, decide_eq_true_eq] at hp
          intro hh
          exact hp ⟨hh.symm, trivial⟩
        refine ⟨by simpa using hget, ?_⟩
        intro j hj
        cases j with
        | zero => simpa using fun hh => hbc hh
        | succ j' =>
          simp only [List.getElem?_cons_succ]
          exact hfirst j' (by omega)

theorem SepList_append {a b : List (Bool × List Char)}
    (ha : SepList a) (hb : SepList b) : SepList (a ++ b) := by
  induction ha with
  | nil => simpa using hb
  | lit v rest h ih => exact SepList.lit v (rest ++ b) ih
  | ph v n rest h ih => exact SepList.ph v n (rest ++ b) ih

theorem GoodSegs_single (v : List Char) : GoodSegs [(false, v)] :=
  ⟨SepList.lit v [] SepList.nil, ⟨v, [], rfl⟩, ⟨v, rfl⟩⟩

theorem GoodSegs_append_mid {pre post : List (Bool × List Char)} (b : List Char)
    (hpre : GoodSegs pre) (hpost : GoodSegs post) :
    GoodSegs (pre ++ [(false, b)] ++ post) := by
  obtain ⟨hs1, ⟨v1, r1, he1⟩, _⟩ := hpre
  obtain ⟨hs2, ⟨v2, r2, he2⟩, w2, hl2⟩ := hpost
  refine ⟨?_, ?_, ?_⟩
  · rw [List.append_assoc]
    exact SepList_append hs1 (SepList.lit b post hs2)
  · subst he1
    exact ⟨v1, r1 ++ [(false, b)] ++ post, by simp⟩
  · rw [List.append_assoc]
    rw [List.getLast?_append_of_ne_nil _ (by subst he2; simp)]
    rw [show ([(false, b)] : List (Bool × List Char)) ++ post = (false, b) :: post by simp]
    subst he2
    rw [List.getLast?_cons_cons]
    exact ⟨w2, hl2⟩

theorem GoodSegs_placeholder {post : List (Bool × List Char)}
    (p n : List Char) (hpost : GoodSegs post) :
    GoodSegs ((false, p) :: (true, n) :: post) := by
  obtain ⟨hs, ⟨v, r, he⟩, w, hl⟩ := hpost
  refine ⟨SepList.ph p n post hs, ⟨p, (true, n) :: post, rfl⟩, w, ?_⟩
  rw [List.getLast?_cons_cons]
  subst he
  rw [List.getLast?_cons_cons]
  exact hl

theorem renderHelperF_good :
    ∀ (fuel : Nat) (body : List Char) (segs : List (Bool × List Char)),
      renderHelperF fuel body = .ok segs → GoodSegs segs := by
  intro fuel
  induction fuel with
  | zero => intro body segs hok; simp [renderHelperF] at hok
  | succ fuel ih =>
    intro body segs hok
    cases hf1 : findSub [obrc, obrc] body with
    | some i =>
      simp only [renderHelperF, hf1] at hok
      cases hpre : renderHelperF fuel (body.take i) with
      | error e => rw [hpre] at hok; simp at hok
      | ok pre_vec =>
        rw [hpre] at hok
        cases hpost : renderHelperF fuel
            (if i + 2 < body.length then body.drop (i + 2) else []) with
        | error e => rw [hpost] at hok; simp at hok
        | ok post_vec =>
          rw [hpost] at hok
          simp only [Except.ok.injEq] at hok
          subst hok
          exact GoodSegs_append_mid [obrc] (ih _ _ hpre) (ih _ _ hpost)
    | none =>
      cases hf2 : findSub [cbrc, cbrc] body with
      | some i =>
        simp only [renderHelperF, hf1, hf2] at hok
        cases hpre : renderHelperF fuel (body.take i) with
        | error e => rw [hpre] at hok; simp at hok
        | ok pre_vec =>
          rw [hpre] at hok
          cases hpost : renderHelperF fuel
              (if i + 2 < body.length then body.drop (i + 2) else []) with
          | error e => rw [hpost] at hok; simp at hok
          | ok post_vec =>
            rw [hpost] at hok
            simp only [Except.ok.injEq] at hok
            subst hok
            exact GoodSegs_append_mid [cbrc] (ih _ _ hpre) (ih _ _ hpost)
      | none =>
        cases hf3 : findSub [obrc] body with
        | none =>
          cases hf4 : findSub [cbrc] body with
          | none =>
            simp only [renderHelperF, hf1, hf2, hf3, hf4, Except.ok.injEq] at hok
            subst hok
            exact GoodSegs_single body
          | some e => simp [renderHelperF, hf1, hf2, hf3, hf4] at hok
        | some s =>
          cases hf4 : findSub [cbrc] body with
          | none => simp [renderHelperF, hf1, hf2, hf3, hf4] at hok
          | some e =>
            simp only [renderHelperF, hf1, hf2, hf3, hf4] at hok
            by_cases hse : s > e
            · rw [if_pos hse] at hok; simp at hok
            · rw [if_neg hse] at hok
              cases hpost : renderHelperF fuel (body.drop (e + 1)) with
              | error err => rw [hpost] at hok; simp at hok
              | ok post_vec =>
                rw [hpost] at hok
                simp only [Except.ok.injEq] at hok
                subst hok
                exact GoodSegs_placeholder _ _ (ih _ _ hpost)

theorem renderHelper_good {body : List Char} {segs : List (Bool × List Char)}
    (h : renderHelper body = .ok segs) : GoodSegs segs := by
  rw [renderHelper_eval] at h
  exact renderHelperF_good _ _ _ h

theorem SepList_index {segs : List (Bool × List Char)} (h : SepList segs) :
    ∀ i v, segs[i]? = some (true, v) → 0 < i ∧ ∃ w, segs[i - 1]? = some (false, w) := by
  induction h with
  | nil => intro i v hi; simp at hi
  | lit u rest hr ih =>
    intro i v hi
    cases i with
    | zero => simp at hi
    | succ j =>
      simp only [List.getElem?_cons_succ] at hi
      obtain ⟨hj0, w, hw⟩ := ih j v hi
      refine ⟨by omega, w, ?_⟩
      rw [show j + 1 - 1 = (j - 1) + 1 from by omega]
      simpa using hw
  | ph u n rest hr ih =>
    intro i v hi
    cases i with
    | zero => simp at hi
    | succ j =>
      cases j with
      | zero => exact ⟨by omega, u, by simp⟩
      | succ k =>
        simp only [List.getElem?_cons_succ] at hi
        obtain ⟨hk0, w, hw⟩ := ih k v hi
        refine ⟨by omega, w, ?_⟩
        rw [show k + 1 + 1 - 1 = ((k - 1) + 1) + 1 from by omega]
        simp only [List.getElem?_cons_succ]
        exact hw

theorem renderPairs_ok {subs : List (List Char × NestedTemplate)}
    {segs : List (Bool × List Char)} {outs : List (List Char)}
    (h : List.Forall₂ (SegOut subs) segs outs) :
    renderPairs subs segs = .ok outs.flatten := by
  induction h with
  | nil => simp [renderPairs]
  | @cons seg out rsegs routs hseg hrest ih =>
    obtain ⟨b, v⟩ := seg
    cases b with
    | false =>
      have hv : out = v := hseg
      subst hv
      simp only [renderPairs, Bool.false_eq_true, if_false, ih, ok_bind, pure_eq_ok,
        List.flatten_cons]
    | true =>
      obtain ⟨t, hl, hr⟩ := hseg
      simp only [renderPairs, if_true]
      rw [hl]
      dsimp only
      rw [hr, ok_bind, ih, ok_bind, pure_eq_ok]
      simp [List.flatten_cons]

theorem renderPairs_missing {subs : List (List Char × NestedTemplate)}
    {pre rest : List (Bool × List Char)} {outs : List (List Char)} {n : List Char}
    (hpre : List.Forall₂ (SegOut subs) pre outs)
    (hmiss : lookupSub n subs = none) :
    renderPairs subs (pre ++ (true, n) :: rest) = .error (.MissingTemplate n) := by
  induction hpre with
  | nil =>
    simp only [List.nil_append, renderPairs, if_true]
    rw [hmiss]
  | @cons seg out rsegs routs hseg hrest ih =>
    obtain ⟨b, v⟩ := seg
    cases b with
    | false =>
      simp only [List.cons_append, renderPairs, Bool.false_eq_true, if_false, ih,
        error_bind]
    | true =>
      obtain ⟨t, hl, hr⟩ := hseg
      simp only [List.cons_append, renderPairs, if_true]
      rw [hl]
      dsimp only
      rw [hr, ok_bind, ih, error_bind]

/-- C1: for every template whose body tokenizes successfully and whose every
placeholder segment resolves to a child whose recursive render succeeds
(`SegOut` relates each segment, in order, to its output), `render` returns
`Ok` of the exact left-to-right concatenation of the literal texts and the
recursively rendered child outputs. -/
theorem C1_render_concat (body : List Char)
    (subs : List (List Char × NestedTemplate))
    (segs : List (Bool × List Char)) (outs : List (List Char))
    (htok : renderHelper body = .ok segs)
    (hres : List.Forall₂ (SegOut subs) segs outs) :
    render (NestedTemplate.mk body subs) = .ok outs.flatten := by
  simp only [render]
  rw [htok, ok_bind]
  exact renderPairs_ok hres

/-- Witness for C1: body `"a{x}c"` with child `x ↦ "X"` renders to `"aXc"`. -/
theorem C1_render_concat_witness :
    render (NestedTemplate.mk ("a\x7bx\x7dc".toList)
      [(("x".toList), NestedTemplate.mk ("X".toList) [])]) = .ok ("aXc".toList) := by
  have h := C1_render_concat ("a\x7bx\x7dc".toList)
    [(("x".toList), NestedTemplate.mk ("X".toList) [])]
    [(false, ("a".toList)), (true, ("x".toList)), (false, ("c".toList))]
    [("a".toList), ("X".toList), ("c".toList)]
    (by rw [renderHelper_eval]; decide)
    (List.Forall₂.cons rfl (List.Forall₂.cons
      ⟨NestedTemplate.mk ("X".toList) [], rfl, by rw [render_eval]; decide⟩
      (List.Forall₂.cons rfl List.Forall₂.nil)))
  exact h.trans (by decide)

/-- C2: the three-level tree — root `"<!DOCTYPE html><body>{first_child}</body>"`,
child `first_child ↦ "<div>X</div><script>{second_child}</script>"`,
grandchild `second_child ↦ "second_child"` — renders to
`"<!DOCTYPE html><body><div>X</div><script>second_child</script></body>"`. -/
theorem C2_end_to_end :
    render ((NestedTemplate.new
        ("<!DOCTYPE html><body>\x7bfirst_child\x7d</body>".toList)).add_sub_template
        ("first_child".toList)
        ((NestedTemplate.new
          ("<div>X</div><script>\x7bsecond_child\x7d</script>".toList)).add_sub_template
          ("second_child".toList)
          (NestedTemplate.new ("second_child".toList)))) =
      .ok ("<!DOCTYPE html><body><div>X</div><script>second_child</script></body>".toList) := by
  rw [render_eval]
  decide

/-- C3: tokenizing `"{{"` yields a single literal `"{"` segment with empty
literal neighbors, `"}}"` symmetrically a literal `"}"`, and `"a{{b}}c"`
yields exactly the literal segments `"a"`, `"{"`, `"b"`, `"}"`, `"c"` in that
order (whose concatenation is `"a{b}c"`), with no placeholder segments. -/
theorem C3_escape_symmetry :
    renderHelper ("\x7b\x7b".toList) =
      .ok [(false, []), (false, [obrc]), (false, [])] ∧
    renderHelper ("\x7d\x7d".toList) =
      .ok [(false, []), (false, [cbrc]), (false, [])] ∧
    renderHelper ("a\x7b\x7bb\x7d\x7dc".toList) =
      .ok [(false, ['a']), (false, [obrc]), (false, ['b']), (false, [cbrc]),
        (false, ['c'])] ∧
    ([(false, ['a']), (false, [obrc]), (false, ['b']), (false, [cbrc]),
        (false, ['c'])].map (fun p => p.2)).flatten = ("a\x7bb\x7dc".toList) := by
  refine ⟨?_, ?_, ?_, ?_⟩
  · rw [renderHelper_eval]; decide
  · rw [renderHelper_eval]; decide
  · rw [renderHelper_eval]; decide
  · decide

/-- C4: for every body containing neither `"{{"` nor `"}}"`: with a `'{'` but
no `'}'`, tokenizing fails with `MissingCloseBrace` at the index of the first
`'{'`; with a `'}'` but no `'{'`, or with the first `'}'` at a smaller index
than the first `'{'`, it fails with `MissingOpenBrace` at the index of the
first `'}'` (indices are offsets in the scanned sub-body; `findSub [c]` is
proven to return the first occurrence of `c`). -/
theorem C4_unpaired_braces (body : List Char)
    (h1 : ¬ [obrc, obrc] <:+: body) (h2 : ¬ [cbrc, cbrc] <:+: body) :
    (obrc ∈ body → cbrc ∉ body →
      ∃ s, findSub [obrc] body = some s ∧
        renderHelper body = .error (.MissingCloseBrace s) ∧
        body[s]? = some obrc ∧ ∀ j, j < s → body[j]? ≠ some obrc) ∧
    (cbrc ∈ body → obrc ∉ body →
      ∃ e, findSub [cbrc] body = some e ∧
        renderHelper body = .error (.MissingOpenBrace e) ∧
        body[e]? = some cbrc ∧ ∀ j, j < e → body[j]? ≠ some cbrc) ∧
    (∀ s e, findSub [obrc] body = some s → findSub [cbrc] body = some e → e < s →
      renderHelper body = .error (.MissingOpenBrace e) ∧
      body[e]? = some cbrc ∧ ∀ j, j < e → body[j]? ≠ some cbrc) := by
  have hf1 : findSub [obrc, obrc] body = none := findSub_none_of_not_infix h1
  have hf2 : findSub [cbrc, cbrc] body = none := findSub_none_of_not_infix h2
  refine ⟨?_, ?_, ?_⟩
  · intro hmem hnot
    obtain ⟨s, hs⟩ := findSub_single_some_of_mem hmem
    have he : findSub [cbrc] body = none := findSub_single_none hnot
    obtain ⟨hget, hfirst⟩ := findSub_single_first hs
    refine ⟨s, hs, ?_, hget, hfirst⟩
    rw [renderHelper_eval]
    simp only [renderHelperF, hf1, hf2, hs, he]
  · intro hmem hnot
    obtain ⟨e, he⟩ := findSub_single_some_of_mem hmem
    have hs : findSub [obrc] body = none := findSub_single_none hnot
    obtain ⟨hget, hfirst⟩ := findSub_single_first he
    refine ⟨e, he, ?_, hget, hfirst⟩
    rw [renderHelper_eval]
    simp only [renderHelperF, hf1, hf2, hs, he]
  · intro s e hs he hlt
    obtain ⟨hget, hfirst⟩ := findSub_single_first he
    refine ⟨?_, hget, hfirst⟩
    rw [renderHelper_eval]
    simp only [renderHelperF, hf1, hf2, hs, he]
    rw [if_pos (by omega)]

/-- Witness for C4: `"a{b"` fails with `MissingCloseBrace 1`, `"a}b"` fails
with `MissingOpenBrace 1`, and `"x}y{z"` fails with `MissingOpenBrace 1`. -/
theorem C4_unpaired_braces_witness :
    renderHelper ("a\x7bb".toList) = .error (.MissingCloseBrace 1) ∧
    renderHelper ("a\x7db".toList) = .error (.MissingOpenBrace 1) ∧
    renderHelper ("x\x7dy\x7bz".toList) = .error (.MissingOpenBrace 1) := by
  refine ⟨?_, ?_, ?_⟩
  · obtain ⟨s, hs, herr, -⟩ :=
      (C4_unpaired_braces ("a\x7bb".toList) (by decide) (by decide)).1
        (by decide) (by decide)
    have : s = 1 := by rw [show findSub [obrc] ("a\x7bb".toList) = some 1 from by decide] at hs; injection hs with h; omega
    subst this
    exact herr
  · obtain ⟨e, he, herr, -⟩ :=
      (C4_unpaired_braces ("a\x7db".toList) (by decide) (by decide)).2.1
        (by decide) (by decide)
    have : e = 1 := by rw [show findSub [cbrc] ("a\x7db".toList) = some 1 from by decide] at he; injection he with h; omega
    subst this
    exact herr
  · exact ((C4_unpaired_braces ("x\x7dy\x7bz".toList) (by decide) (by decide)).2.2
      3 1 (by decide) (by decide) (by omega)).1

/-- C5 counterexample: tokenizing `"{ {inner} }"` does NOT succeed (the claim
asserts it succeeds with a brace-containing placeholder name). -/
theorem C5_counterexample :
    ¬ ∃ segs, renderHelper ("\x7b \x7binner\x7d \x7d".toList) = .ok segs := by
  intro hex
  obtain ⟨segs, h⟩ := hex
  have hv : renderHelper ("\x7b \x7binner\x7d \x7d".toList) =
      .error (.MissingOpenBrace 1) := by
    rw [renderHelper_eval]; decide
  rw [hv] at h
  exact Except.noConfusion h

/-- C5 (amended): tokenizing `"{ {inner} }"` fails with `MissingOpenBrace 1`
(the stray `'}'` at offset 1 of the trailing sub-body `" }"`), so rendering a
template with this body fails with that same error for every children map —
never a nested template-inside-template substitution.  The name the scanner
would extract from the first brace pair is `"{inner"`, containing the inner
brace literally. -/
theorem C5_amended :
    renderHelper ("\x7b \x7binner\x7d \x7d".toList) =
      .error (.MissingOpenBrace 1) ∧
    (∀ subs, render (NestedTemplate.mk ("\x7b \x7binner\x7d \x7d".toList) subs) =
      .error (.MissingOpenBrace 1)) ∧
    trimList ((("\x7b \x7binner\x7d \x7d".toList).take 8).drop (0 + 1)) =
      ("\x7binner".toList) := by
  have hv : renderHelper ("\x7b \x7binner\x7d \x7d".toList) =
      .error (.MissingOpenBrace 1) := by
    rw [renderHelper_eval]; decide
  refine ⟨hv, ?_, by decide⟩
  intro subs
  simp only [render]
  rw [hv, error_bind]

/-- C6: if the body tokenizes to segments `pre ++ (true, n) :: rest`, the
children map has no entry under `n`, and every segment of `pre` renders
successfully, then `render` fails with `MissingTemplate n` (the `Except`
result carries no partial output). -/
theorem C6_missing_template (body : List Char)
    (subs : List (List Char × NestedTemplate))
    (pre rest : List (Bool × List Char)) (outs : List (List Char)) (n : List Char)
    (htok : renderHelper body = .ok (pre ++ (true, n) :: rest))
    (hmiss : lookupSub n subs = none)
    (hpre : List.Forall₂ (SegOut subs) pre outs) :
    render (NestedTemplate.mk body subs) = .error (.MissingTemplate n) := by
  simp only [render]
  rw [htok, ok_bind]
  exact renderPairs_missing hpre hmiss

/-- Witness for C6: a body referencing `{foo}` with no child named `"foo"`
fails with `MissingTemplate "foo"`. -/
theorem C6_missing_template_witness :
    render (NestedTemplate.mk ("\x7bfoo\x7d".toList) []) =
      .error (.MissingTemplate ("foo".toList)) := by
  exact C6_missing_template ("\x7bfoo\x7d".toList) [] [(false, [])] [(false, [])]
    [[]] ("foo".toList)
    (by rw [renderHelper_eval]; decide) rfl
    (List.Forall₂.cons rfl List.Forall₂.nil)

/-- C7: a placeholder's name is the text strictly between its braces with
surrounding whitespace trimmed (and may be empty): `"{}"` tokenizes to
`[(lit ""), (ph ""), (lit "")]`; in the general well-paired case the emitted
placeholder is `trimList` of the slice strictly between the braces; and
`"{ template }"` resolves against a child registered under exactly
`"template"`. -/
theorem C7_name_trimming :
    renderHelper ("\x7b\x7d".toList) = .ok [(false, []), (true, []), (false, [])] ∧
    (∀ (body : List Char) (s e : Nat),
      findSub [obrc, obrc] body = none → findSub [cbrc, cbrc] body = none →
      findSub [obrc] body = some s → findSub [cbrc] body = some e → s < e →
      ∀ post_vec, renderHelper (body.drop (e + 1)) = .ok post_vec →
        renderHelper body = .ok ((false, body.take s) ::
          (true, trimList ((body.take e).drop (s + 1))) :: post_vec)) ∧
    render (NestedTemplate.mk ("\x7b template \x7d".toList)
      [(("template".toList), NestedTemplate.mk ("X".toList) [])]) =
      .ok ("X".toList) := by
  refine ⟨by rw [renderHelper_eval]; decide, ?_, by rw [render_eval]; decide⟩
  intro body s e hf1 hf2 h3 h4 hse post_vec hpost
  have hb := findSub_bound h4
  simp only [List.length_cons, List.length_nil] at hb
  rw [renderHelper_eval]
  simp only [renderHelperF, hf1, hf2, h3, h4]
  rw [if_neg (by omega)]
  rw [renderHelperF_eq body.length _ (by simp only [List.length_drop]; omega)]
  rw [hpost]

/-- Witness for C7: body `"{a}b"` with post-segment list `[(lit "b")]`. -/
theorem C7_name_trimming_witness :
    renderHelper ("\x7ba\x7db".toList) =
      .ok [(false, []), (true, ['a']), (false, ['b'])] := by
  have h := C7_name_trimming.2.1 ("\x7ba\x7db".toList) 0 2
    (by decide) (by decide) (by decide) (by decide) (by omega)
    [(false, ['b'])] (by rw [renderHelper_eval]; decide)
  exact h.trans (by decide)

/-- C8: a body with no brace characters tokenizes to exactly one literal
segment equal to the input, and a childless template with that body renders
to the input unchanged. -/
theorem C8_literal_identity (body : List Char)
    (ho : obrc ∉ body) (hc : cbrc ∉ body) :
    renderHelper body = .ok [(false, body)] ∧
    render (NestedTemplate.new body) = .ok body := by
  have hf1 : findSub [obrc, obrc] body = none := findSub_pair_none ho
  have hf2 : findSub [cbrc, cbrc] body = none := findSub_pair_none hc
  have h3 : findSub [obrc] body = none := findSub_single_none ho
  have h4 : findSub [cbrc] body = none := findSub_single_none hc
  have htok : renderHelper body = .ok [(false, body)] := by
    rw [renderHelper_eval]
    simp only [renderHelperF, hf1, hf2, h3, h4]
  refine ⟨htok, ?_⟩
  simp only [NestedTemplate.new, render]
  rw [htok, ok_bind]
  simp only [renderPairs, Bool.false_eq_true, if_false, ok_bind, pure_eq_ok,
    List.append_nil]

/-- Witness for C8 at the brace-free body `"hello"`. -/
theorem C8_literal_identity_witness :
    renderHelper ("hello".toList) = .ok [(false, ("hello".toList))] ∧
    render (NestedTemplate.new ("hello".toList)) = .ok ("hello".toList) :=
  C8_literal_identity ("hello".toList) (by decide) (by decide)

/-- C9: each recursive call of `render_helper` is on a strictly shorter
sub-body (the slice before an escape, the slice after an escape's two
characters, or the slice after a placeholder's close brace), and both the
tokenizer and `render` are total functions returning either a success value
or an error (their Lean embeddings are total by the very well-founded
recursions mirroring these decreases). -/
theorem C9_termination :
    (∀ (body : List Char) (i : Nat),
      (findSub [obrc, obrc] body = some i ∨ findSub [cbrc, cbrc] body = some i) →
      (body.take i).length < body.length ∧
      (if i + 2 < body.length then body.drop (i + 2) else []).length <
        body.length) ∧
    (∀ (body : List Char) (e : Nat), findSub [cbrc] body = some e →
      (body.drop (e + 1)).length < body.length) ∧
    (∀ body : List Char, (∃ segs, renderHelper body = .ok segs) ∨
      (∃ err, renderHelper body = .error err)) ∧
    (∀ t : NestedTemplate, (∃ out, render t = .ok out) ∨
      (∃ err, render t = .error err)) := by
  refine ⟨?_, ?_, ?_, ?_⟩
  · intro body i h
    have hb : i + 2 ≤ body.length := by
      rcases h with h | h <;>
        · have := findSub_bound h
          simp only [List.length_cons, List.length_nil] at this
          omega
    constructor
    · simp only [List.length_take]; omega
    · split
      · simp only [List.length_drop]; omega
      · simp only [List.length_nil]; omega
  · intro body e h
    have := findSub_bound h
    simp only [List.length_cons, List.length_nil] at this
    simp only [List.length_drop]
    omega
  · intro body
    cases h : renderHelper body with
    | ok segs => exact Or.inl ⟨segs, rfl⟩
    | error err => exact Or.inr ⟨err, rfl⟩
  · intro t
    cases h : render t with
    | ok out => exact Or.inl ⟨out, rfl⟩
    | error err => exact Or.inr ⟨err, rfl⟩

/-- Witness for C9 at `"{{"` (escape decrease), `"x}y"` (placeholder-close
decrease), and totality at `"ab"`. -/
theorem C9_termination_witness :
    ((("\x7b\x7b".toList).take 0).length < ("\x7b\x7b".toList).length ∧
      (if 0 + 2 < ("\x7b\x7b".toList).length then ("\x7b\x7b".toList).drop (0 + 2)
        else []).length < ("\x7b\x7b".toList).length) ∧
    (("x\x7dy".toList).drop (1 + 1)).length < ("x\x7dy".toList).length ∧
    ((∃ segs, renderHelper ("ab".toList) = .ok segs) ∨
      (∃ err, renderHelper ("ab".toList) = .error err)) ∧
    ((∃ out, render (NestedTemplate.new ("ab".toList)) = .ok out) ∨
      (∃ err, render (NestedTemplate.new ("ab".toList)) = .error err)) :=
  ⟨C9_termination.1 ("\x7b\x7b".toList) 0 (Or.inl (by decide)),
    C9_termination.2.1 ("x\x7dy".toList) 1 (by decide),
    C9_termination.2.2.1 ("ab".toList),
    C9_termination.2.2.2 (NestedTemplate.new ("ab".toList))⟩

/-- C10: whenever `renderHelper` succeeds, the segment list is non-empty, its
last segment is a literal, and every placeholder segment is immediately
preceded by a literal segment (in particular none comes first). -/
theorem C10_segment_invariant (body : List Char) (segs : List (Bool × List Char))
    (h : renderHelper body = .ok segs) :
    segs ≠ [] ∧ (∃ w, segs.getLast? = some (false, w)) ∧
    ∀ i v, segs[i]? = some (true, v) →
      0 < i ∧ ∃ w, segs[i - 1]? = some (false, w) := by
  obtain ⟨hs, ⟨v, rest, hhead⟩, hlast⟩ := renderHelper_good h
  exact ⟨by subst hhead; simp, hlast, SepList_index hs⟩

/-- Witness for C10 at body `"{}"`, whose segments are
`[(lit ""), (ph ""), (lit "")]`. -/
theorem C10_segment_invariant_witness :
    ([(false, ([] : List Char)), (true, []), (false, [])] :
        List (Bool × List Char)) ≠ [] ∧
    (∃ w, ([(false, ([] : List Char)), (true, []), (false, [])] :
        List (Bool × List Char)).getLast? = some (false, w)) ∧
    ∀ i v, ([(false, ([] : List Char)), (true, []), (false, [])] :
        List (Bool × List Char))[i]? = some (true, v) →
      0 < i ∧ ∃ w, ([(false, ([] : List Char)), (true, []), (false, [])] :
        List (Bool × List Char))[i - 1]? = some (false, w) :=
  C10_segment_invariant ("\x7b\x7d".toList) _ (by rw [renderHelper_eval]; decide)

end Ntpl
